import Mathlib

set_option maxHeartbeats 1000000
set_option maxRecDepth 10000

/-! Shallow embedding of the toast terminal-browser frame pipeline:
terminal cells and frames (`toast-core/src/types.rs`), the ANSI palette
builder and color quantizer (`toast-render/src/quantizer.rs`), the
half-block converter (`toast-render/src/halfblock.rs`), the differential
renderer (`toast-terminal/src/renderer.rs`), the cursor overlay and
arrow-key handling (`toast/src/app.rs`), and URL normalization
(`toast/src/main.rs`). Machine integers (`u8`, `usize`) are modelled as
`Nat`; fallible code (array indexing that can panic) returns `Option`. -/

/-- ANSI 256 color index (`AnsiColor(u8)` in the source), as a `Nat`. -/
abbrev AnsiColor := Nat

/-- RGB color with 8-bit channels (`Rgb` in `types.rs`); channels as `Nat`. -/
structure Rgb where
  r : Nat
  g : Nat
  b : Nat
deriving DecidableEq, Repr

/-- `Rgb::new`. -/
def Rgb.new (r g b : Nat) : Rgb := ⟨r, g, b⟩

/-- A single terminal cell with character and colors (`TerminalCell`). -/
structure TerminalCell where
  character : Char
  foreground : AnsiColor
  background : AnsiColor
deriving DecidableEq, Repr

/-- Terminal frame buffer (`TerminalFrame`): row-major cells plus dimensions. -/
structure TerminalFrame where
  cells : List TerminalCell
  width : Nat
  height : Nat
deriving DecidableEq, Repr

/-- `TerminalFrame::new`: `width * height` copies of a space on black. -/
def TerminalFrame.new (width height : Nat) : TerminalFrame :=
  ⟨List.replicate (width * height) ⟨' ', 0, 0⟩, width, height⟩

/-- `TerminalFrame::get`: in-bounds read of the row-major cell list. -/
def TerminalFrame.get (f : TerminalFrame) (x y : Nat) : Option TerminalCell :=
  if x < f.width ∧ y < f.height then f.cells[y * f.width + x]? else none

/-- `TerminalFrame::set`: in-bounds write, no-op outside the bounds. -/
def TerminalFrame.set (f : TerminalFrame) (x y : Nat) (cell : TerminalCell) : TerminalFrame :=
  if x < f.width ∧ y < f.height then
    { f with cells := f.cells.set (y * f.width + x) cell }
  else f

/-- A frame is well formed when its cell list has exactly `width * height`
entries, as guaranteed by `TerminalFrame::new` and preserved by `set`. -/
def TerminalFrame.wf (f : TerminalFrame) : Prop :=
  f.cells.length = f.width * f.height

instance (f : TerminalFrame) : Decidable f.wf := by
  unfold TerminalFrame.wf; infer_instance

/-- `generate_ansi_palette` from `quantizer.rs`: 16 system colors, the
6×6×6 cube written sequentially from index 16, then the 24-step gray ramp. -/
def generate_ansi_palette : List Rgb :=
  let palette := List.replicate 256 (Rgb.new 0 0 0)
  let palette := (palette.set 0 (Rgb.new 0 0 0)).set 1 (Rgb.new 128 0 0)
  let palette := (palette.set 2 (Rgb.new 0 128 0)).set 3 (Rgb.new 128 128 0)
  let palette := (palette.set 4 (Rgb.new 0 0 128)).set 5 (Rgb.new 128 0 128)
  let palette := (palette.set 6 (Rgb.new 0 128 128)).set 7 (Rgb.new 192 192 192)
  let palette := (palette.set 8 (Rgb.new 128 128 128)).set 9 (Rgb.new 255 0 0)
  let palette := (palette.set 10 (Rgb.new 0 255 0)).set 11 (Rgb.new 255 255 0)
  let palette := (palette.set 12 (Rgb.new 0 0 255)).set 13 (Rgb.new 255 0 255)
  let palette := (palette.set 14 (Rgb.new 0 255 255)).set 15 (Rgb.new 255 255 255)
  let cube := (List.range 6).foldl (fun acc r =>
    (List.range 6).foldl (fun acc g =>
      (List.range 6).foldl (fun acc b =>
        let rv := if r = 0 then 0 else 55 + r * 40
        let gv := if g = 0 then 0 else 55 + g * 40
        let bv := if b = 0 then 0 else 55 + b * 40
        (acc.1.set acc.2 (Rgb.new rv gv bv), acc.2 + 1)) acc) acc) (palette, 16)
  let palette := cube.1
  (List.range 24).foldl (fun p i =>
    p.set (232 + i) (Rgb.new (8 + i * 10) (8 + i * 10) (8 + i * 10))) palette

/-- `lut_index` from `quantizer.rs`: `(r5 << 10) | (g5 << 5) | b5`. -/
def lut_index (r5 g5 b5 : Nat) : Nat := (r5 <<< 10) ||| (g5 <<< 5) ||| b5

/-- `ColorQuantizer`: the 32768-entry lookup table, modelled as a function
from indices to palette indices. -/
structure ColorQuantizer where
  lut : Nat → Nat

/-- `ColorQuantizer::quantize`: shift each channel right by 3 and look the
RGB555 key up in the table. -/
def ColorQuantizer.quantize (q : ColorQuantizer) (rgb : Rgb) : AnsiColor :=
  q.lut (lut_index (rgb.r >>> 3) (rgb.g >>> 3) (rgb.b >>> 3))

/-- Cursor position for the overlay cursor (`CursorPosition`). -/
structure CursorPosition where
  x : Nat
  y : Nat
deriving DecidableEq, Repr

/-- The four arrow keys handled by `keyboard_task` in `app.rs`. -/
inductive ArrowKey where
  | up
  | down
  | left
  | right
deriving DecidableEq, Repr

/-- Arrow-key handling from `keyboard_task`: move one cell, guarded so the
position never leaves `[0, width) × [0, height)`. -/
def moveCursor (width height : Nat) (pos : CursorPosition) : ArrowKey → CursorPosition
  | .up => if pos.y > 0 then { pos with y := pos.y - 1 } else pos
  | .down => if pos.y < height - 1 then { pos with y := pos.y + 1 } else pos
  | .left => if pos.x > 0 then { pos with x := pos.x - 1 } else pos
  | .right => if pos.x < width - 1 then { pos with x := pos.x + 1 } else pos

/-- Initial cursor position from `App::run`: the terminal center. -/
def initCursor (width height : Nat) : CursorPosition := ⟨width / 2, height / 2⟩

/-- Rust `str::starts_with`, as a prefix test on the character list. -/
def strStartsWith (s p : String) : Bool := p.data.isPrefixOf s.data

/-- URL validation from `main.rs`: keep an `http://` or `https://` URL
unchanged, otherwise prepend `https://`. -/
def normalizeUrl (url_input : String) : String :=
  if strStartsWith url_input "http://" || strStartsWith url_input "https://" then url_input
  else "https://" ++ url_input

/-- Decoded RGB image (`RgbImage` in `types.rs`): raw bytes, row-major RGB
triplets. -/
structure RgbImage where
  data : List Nat
  width : Nat
  height : Nat
deriving DecidableEq, Repr

/-- An image is well formed when it holds exactly `3 * width * height`
bytes, the invariant asserted by `RgbImage::new`. -/
def RgbImage.wf (img : RgbImage) : Prop :=
  img.data.length = 3 * (img.width * img.height)

instance (img : RgbImage) : Decidable img.wf := by
  unfold RgbImage.wf; infer_instance

/-- `RgbImage::get_pixel`: unchecked indexing at offset
`(y * width + x) * 3`; an out-of-bounds index panics in the source and is
`none` here. -/
def RgbImage.get_pixel (img : RgbImage) (x y : Nat) : Option Rgb :=
  let offset := (y * img.width + x) * 3
  match img.data[offset]?, img.data[offset + 1]?, img.data[offset + 2]? with
  | some r, some g, some b => some (Rgb.new r g b)
  | _, _, _ => none

/-- Unicode upper half block character (`UPPER_HALF_BLOCK`). -/
def UPPER_HALF_BLOCK : Char := '▀'

/-- Full block character (`FULL_BLOCK`). -/
def FULL_BLOCK : Char := '█'

/-- `HalfBlockConverter::convert_cell`: read the two vertically adjacent
pixels (duplicating the top one when the bottom row is out of bounds),
quantize both, and pick a full block or an upper half block. `none` marks
a panic of the unchecked pixel reads. -/
def HalfBlockConverter.convert_cell (q : ColorQuantizer) (image : RgbImage)
    (cell_x cell_y : Nat) : Option TerminalCell := do
  let pixel_y_top := cell_y * 2
  let pixel_y_bottom := pixel_y_top + 1
  let pair ←
    if pixel_y_bottom < image.height then do
      let top ← image.get_pixel cell_x pixel_y_top
      let bottom ← image.get_pixel cell_x pixel_y_bottom
      pure (top, bottom)
    else do
      let top ← image.get_pixel cell_x pixel_y_top
      pure (top, top)
  let top_ansi := q.quantize pair.1
  let bottom_ansi := q.quantize pair.2
  if top_ansi = bottom_ansi then
    pure { character := FULL_BLOCK, foreground := top_ansi, background := top_ansi }
  else
    pure { character := UPPER_HALF_BLOCK, foreground := top_ansi, background := bottom_ansi }

/-- `HalfBlockConverter::convert`: build each row of cells, then copy the
rows into a fresh frame with `set`. `none` marks a panic of any cell
conversion. -/
def HalfBlockConverter.convert (q : ColorQuantizer) (image : RgbImage)
    (term_width term_height : Nat) : Option TerminalFrame := do
  let frame := TerminalFrame.new term_width term_height
  let rows ← (List.range term_height).mapM (fun y =>
    (List.range term_width).mapM (fun x => HalfBlockConverter.convert_cell q image x y))
  pure (rows.enum.foldl (fun fr yrow =>
    yrow.2.enum.foldl (fun fr2 xc => fr2.set xc.1 yrow.1 xc.2) fr) frame)

/-- One byte-stream command of the renderer: the four escape/glyph
emissions of `renderer.rs` (`MoveTo`, `MoveToNextLine(1)`, the pair of SGR
color codes followed by the cell's glyph, and the attribute reset). -/
inductive PaintCmd where
  | moveTo (x y : Nat)
  | nextLine
  | writeCell (c : TerminalCell)
  | reset
deriving DecidableEq, Repr

/-- Concrete bytes of one command, per the crossterm encodings used by the
source (`ESC[{row+1};{col+1}H`, `ESC[1E`, `ESC[38;5;{fg}m ESC[48;5;{bg}m`
plus the glyph, `ESC[0m`). -/
def cmdToString : PaintCmd → String
  | .moveTo x y => "\x1b[" ++ toString (y + 1) ++ ";" ++ toString (x + 1) ++ "H"
  | .nextLine => "\x1b[1E"
  | .writeCell c =>
      "\x1b[38;5;" ++ toString c.foreground ++ "m\x1b[48;5;" ++ toString c.background ++ "m"
        ++ String.singleton c.character
  | .reset => "\x1b[0m"

/-- Bytes of a whole command stream. -/
def cmdsToString (l : List PaintCmd) : String := String.join (l.map cmdToString)

/-- An idealized terminal surface: an unbounded cell grid plus the cursor
position. Writing a glyph paints the cell under the cursor and advances
the cursor one column; `moveTo` and `nextLine` only move the cursor. -/
structure TermSurface where
  grid : Nat → Nat → TerminalCell
  curX : Nat
  curY : Nat

/-- Apply one paint command to a terminal surface. -/
def execCmd (s : TermSurface) : PaintCmd → TermSurface
  | .moveTo x y => { s with curX := x, curY := y }
  | .nextLine => { s with curX := 0, curY := s.curY + 1 }
  | .writeCell c =>
      { grid := fun x y => if x = s.curX ∧ y = s.curY then c else s.grid x y,
        curX := s.curX + 1, curY := s.curY }
  | .reset => s

/-- Apply a command stream left to right. -/
def execCmds (s : TermSurface) (l : List PaintCmd) : TermSurface := l.foldl execCmd s

/-- The command stream of one row of `Renderer::render_full`: every cell
`get` yields, then `MoveToNextLine(1)` on every row but the last. -/
def rowPaintCmds (frame : TerminalFrame) (y : Nat) : List PaintCmd :=
  ((List.range frame.width).filterMap fun x => (frame.get x y).map PaintCmd.writeCell) ++
    (if y < frame.height - 1 then [PaintCmd.nextLine] else [])

/-- `Renderer::render_full`: move to the origin, paint every row, then
reset the attributes. -/
def renderFullCmds (frame : TerminalFrame) : List PaintCmd :=
  PaintCmd.moveTo 0 0 ::
    ((List.range frame.height).flatMap (rowPaintCmds frame) ++ [PaintCmd.reset])

/-- The `last_x`/`last_y` tracking and accumulated output of
`Renderer::render_diff`. -/
structure DiffAcc where
  lastX : Option Nat
  lastY : Option Nat
  cmds : List PaintCmd
deriving DecidableEq, Repr

/-- One cell step of `Renderer::render_diff`: skip unchanged cells;
otherwise move the cursor when it is not already in place, emit the cell,
and record the expected cursor position `(x + 1, y)`. The emitted move is
`MoveTo(x as u16, y as u16)` in the source, so each coordinate is
truncated modulo `2^16 = 65536`; the `last_x`/`last_y` tracking keeps the
untruncated values. -/
def diffStep (old_frame new_frame : TerminalFrame) (acc : DiffAcc) (p : Nat × Nat) : DiffAcc :=
  if old_frame.get p.1 p.2 ≠ new_frame.get p.1 p.2 then
    match new_frame.get p.1 p.2 with
    | some cell =>
        let moves := if acc.lastX ≠ some p.1 ∨ acc.lastY ≠ some p.2
          then [PaintCmd.moveTo (p.1 % 65536) (p.2 % 65536)] else []
        { lastX := some (p.1 + 1), lastY := some p.2,
          cmds := acc.cmds ++ moves ++ [PaintCmd.writeCell cell] }
    | none => acc
  else acc

/-- Row-major traversal order of the diff loop: `y` outer, `x` inner. -/
def rowMajor (width height : Nat) : List (Nat × Nat) :=
  (List.range height).flatMap (fun y => (List.range width).map (fun x => (x, y)))

/-- `Renderer::render_diff`: fall back to a full paint on a dimension
mismatch, otherwise walk the cells in row-major order and end with the
attribute reset. -/
def renderDiffCmds (old_frame new_frame : TerminalFrame) : List PaintCmd :=
  if old_frame.width ≠ new_frame.width ∨ old_frame.height ≠ new_frame.height then
    renderFullCmds new_frame
  else
    ((rowMajor new_frame.width new_frame.height).foldl (diffStep old_frame new_frame)
      ⟨none, none, []⟩).cmds ++ [PaintCmd.reset]

/-- `Renderer::render`: first frame paints fully, later frames paint the
diff against the front buffer; the front buffer then becomes the new
frame. Returns the emitted command stream and the new front buffer. -/
def Renderer.render (front : Option TerminalFrame) (new_frame : TerminalFrame) :
    List PaintCmd × Option TerminalFrame :=
  match front with
  | none => (renderFullCmds new_frame, some new_frame)
  | some old_frame => (renderDiffCmds old_frame new_frame, some new_frame)

/-- The arrow-shaped cursor bitmap stamped by `display_task` in `app.rs`:
the sixteen `set_cell` calls in source order, as `(dx, dy, glyph)`. -/
def cursorBitmap : List (Nat × Nat × Char) :=
  [(0, 0, '█'), (1, 0, '▄'),
   (0, 1, '█'), (1, 1, '█'), (2, 1, '█'), (3, 1, '▄'),
   (0, 2, '█'), (1, 2, '█'), (2, 2, '█'), (3, 2, '█'), (4, 2, '█'), (5, 2, '▄'),
   (0, 3, '▀'), (3, 3, '█'), (4, 3, '█'),
   (4, 4, '▀')]

/-- The `set_cell` closure of `display_task`: bounds-check, then write the
glyph with foreground = background = `AnsiColor(16)`. -/
def overlayStep (pos : CursorPosition) (fr : TerminalFrame) (e : Nat × Nat × Char) :
    TerminalFrame :=
  if pos.x + e.1 < fr.width ∧ pos.y + e.2.1 < fr.height then
    fr.set (pos.x + e.1) (pos.y + e.2.1) ⟨e.2.2, 16, 16⟩
  else fr

/-- The cursor overlay of `display_task`: stamp the sixteen bitmap cells
onto the frame in source order. -/
def overlayCursor (frame : TerminalFrame) (pos : CursorPosition) : TerminalFrame :=
  cursorBitmap.foldl (overlayStep pos) frame

/-- The cell a well-formed frame holds at an in-bounds position. -/
def cellAt (f : TerminalFrame) (x y : Nat) : TerminalCell :=
  (f.cells[y * f.width + x]?).getD ⟨' ', 0, 0⟩

/-- The cell value the diff paint writes at a position: the new cell when
it differs from the old one, otherwise nothing. -/
def diffWriteAt (old_frame new_frame : TerminalFrame) (x y : Nat) : Option TerminalCell :=
  if old_frame.get x y ≠ new_frame.get x y then new_frame.get x y else none

/-- The pixel a well-formed image holds at an in-bounds position. -/
def pixelAt (img : RgbImage) (x y : Nat) : Rgb :=
  Rgb.new ((img.data[(y * img.width + x) * 3]?).getD 0)
    ((img.data[(y * img.width + x) * 3 + 1]?).getD 0)
    ((img.data[(y * img.width + x) * 3 + 2]?).getD 0)

/-- Does a bitmap entry, stamped at `pos`, land on `(x, y)`? -/
def hitsAt (pos : CursorPosition) (x y : Nat) (e : Nat × Nat × Char) : Bool :=
  pos.x + e.1 == x && pos.y + e.2.1 == y

theorem frame_index_lt {f : TerminalFrame} (hwf : f.wf) {x y : Nat}
    (hx : x < f.width) (hy : y < f.height) : y * f.width + x < f.cells.length := by
  have h1 : y * f.width + x < (y + 1) * f.width := by
    rw [Nat.add_mul, Nat.one_mul]
    omega
  have h2 : (y + 1) * f.width ≤ f.height * f.width := Nat.mul_le_mul_right _ hy
  have h3 : f.height * f.width = f.width * f.height := Nat.mul_comm _ _
  unfold TerminalFrame.wf at hwf
  omega

theorem frame_index_inj {w x x0 y y0 : Nat} (hx : x < w) (hx0 : x0 < w) :
    y * w + x = y0 * w + x0 ↔ x = x0 ∧ y = y0 := by
  constructor
  · intro h
    have hw : 0 < w := Nat.lt_of_le_of_lt (Nat.zero_le x) hx
    have hmx : (y * w + x) % w = x := by
      rw [Nat.add_comm, Nat.add_mul_mod_self_right, Nat.mod_eq_of_lt hx]
    have hmx0 : (y0 * w + x0) % w = x0 := by
      rw [Nat.add_comm, Nat.add_mul_mod_self_right, Nat.mod_eq_of_lt hx0]
    have hxeq : x = x0 := by rw [← hmx, ← hmx0, h]
    have hyeq : y = y0 := by
      have hmul : y * w = y0 * w := by omega
      exact Nat.eq_of_mul_eq_mul_right hw hmul
    exact ⟨hxeq, hyeq⟩
  · rintro ⟨rfl, rfl⟩; rfl

theorem TerminalFrame.set_width (f : TerminalFrame) (x y : Nat) (c : TerminalCell) :
    (f.set x y c).width = f.width := by
  unfold TerminalFrame.set; split <;> rfl

theorem TerminalFrame.set_height (f : TerminalFrame) (x y : Nat) (c : TerminalCell) :
    (f.set x y c).height = f.height := by
  unfold TerminalFrame.set; split <;> rfl

theorem TerminalFrame.wf_set {f : TerminalFrame} (hwf : f.wf) (x y : Nat) (c : TerminalCell) :
    (f.set x y c).wf := by
  unfold TerminalFrame.wf TerminalFrame.set at *
  split <;> simp [List.length_set, hwf]

theorem TerminalFrame.get_eq_some {f : TerminalFrame} (hwf : f.wf) {x y : Nat}
    (hx : x < f.width) (hy : y < f.height) : f.get x y = some (cellAt f x y) := by
  unfold TerminalFrame.get cellAt
  have h := frame_index_lt hwf hx hy
  rw [if_pos ⟨hx, hy⟩, List.getElem?_eq_getElem h]
  rfl

theorem TerminalFrame.get_oob {f : TerminalFrame} {x y : Nat}
    (h : ¬(x < f.width ∧ y < f.height)) : f.get x y = none := by
  unfold TerminalFrame.get
  exact if_neg h

theorem TerminalFrame.get_set (f : TerminalFrame) (hwf : f.wf) (x0 y0 x y : Nat)
    (c : TerminalCell) :
    (f.set x0 y0 c).get x y =
      if x0 < f.width ∧ y0 < f.height ∧ x = x0 ∧ y = y0 then some c else f.get x y := by
  unfold TerminalFrame.set TerminalFrame.get
  by_cases hb : x0 < f.width ∧ y0 < f.height
  · rw [if_pos hb]
    dsimp only
    by_cases hxy : x < f.width ∧ y < f.height
    · rw [if_pos hxy, List.getElem?_set]
      by_cases heq : x = x0 ∧ y = y0
      · obtain ⟨rfl, rfl⟩ := heq
        rw [if_pos rfl, if_pos (frame_index_lt hwf hb.1 hb.2),
          if_pos ⟨hb.1, hb.2, rfl, rfl⟩]
      · have hne : ¬(y0 * f.width + x0 = y * f.width + x) := by
          intro h
          have := (frame_index_inj hb.1 hxy.1).mp h
          exact heq ⟨this.1.symm, this.2.symm⟩
        have hcond : ¬(x0 < f.width ∧ y0 < f.height ∧ x = x0 ∧ y = y0) := by tauto
        rw [if_neg hne, if_neg hcond, if_pos hxy]
    · have hcond : ¬(x0 < f.width ∧ y0 < f.height ∧ x = x0 ∧ y = y0) := by
        rintro ⟨h1, h2, rfl, rfl⟩; exact hxy ⟨h1, h2⟩
      rw [if_neg hxy, if_neg hxy, if_neg hcond]
  · have hcond : ¬(x0 < f.width ∧ y0 < f.height ∧ x = x0 ∧ y = y0) := by tauto
    rw [if_neg hb, if_neg hcond]

theorem overlayStep_width (pos : CursorPosition) (fr : TerminalFrame) (e : Nat × Nat × Char) :
    (overlayStep pos fr e).width = fr.width := by
  unfold overlayStep
  split
  · exact TerminalFrame.set_width ..
  · rfl

theorem overlayStep_height (pos : CursorPosition) (fr : TerminalFrame) (e : Nat × Nat × Char) :
    (overlayStep pos fr e).height = fr.height := by
  unfold overlayStep
  split
  · exact TerminalFrame.set_height ..
  · rfl

theorem overlayStep_wf {fr : TerminalFrame} (hwf : fr.wf) (pos : CursorPosition)
    (e : Nat × Nat × Char) : (overlayStep pos fr e).wf := by
  unfold overlayStep
  split
  · exact TerminalFrame.wf_set hwf ..
  · exact hwf

theorem overlayStep_get (pos : CursorPosition) (fr : TerminalFrame) (hwf : fr.wf)
    (e : Nat × Nat × Char) (x y : Nat) :
    (overlayStep pos fr e).get x y =
      if hitsAt pos x y e then
        (if x < fr.width ∧ y < fr.height then some ⟨e.2.2, 16, 16⟩ else none)
      else fr.get x y := by
  unfold overlayStep
  by_cases hp : hitsAt pos x y e
  · have hpx : pos.x + e.1 = x := by
      have := hp
      unfold hitsAt at this
      simp only [Bool.and_eq_true, beq_iff_eq] at this
      exact this.1
    have hpy : pos.y + e.2.1 = y := by
      have := hp
      unfold hitsAt at this
      simp only [Bool.and_eq_true, beq_iff_eq] at this
      exact this.2
    rw [if_pos hp]
    subst hpx hpy
    by_cases hin : pos.x + e.1 < fr.width ∧ pos.y + e.2.1 < fr.height
    · rw [if_pos hin, if_pos hin, TerminalFrame.get_set fr hwf,
        if_pos ⟨hin.1, hin.2, rfl, rfl⟩]
    · rw [if_neg hin, if_neg hin, TerminalFrame.get_oob hin]
  · have hne : ¬(x = pos.x + e.1 ∧ y = pos.y + e.2.1) := by
      intro ⟨h1, h2⟩
      apply hp
      unfold hitsAt
      simp [h1, h2]
    rw [if_neg hp]
    split
    · rw [TerminalFrame.get_set fr hwf, if_neg (by tauto)]
    · rfl

theorem overlay_fold_get (pos : CursorPosition) :
    ∀ (l : List (Nat × Nat × Char)) (fr : TerminalFrame), fr.wf → ∀ (x y : Nat),
      (l.foldl (overlayStep pos) fr).get x y =
        match l.reverse.find? (hitsAt pos x y) with
        | some e => if x < fr.width ∧ y < fr.height then some ⟨e.2.2, 16, 16⟩ else none
        | none => fr.get x y := by
  intro l
  induction l with
  | nil => intro fr hwf x y; simp
  | cons e t ih =>
    intro fr hwf x y
    rw [List.foldl_cons, List.reverse_cons, List.find?_append,
      ih (overlayStep pos fr e) (overlayStep_wf hwf pos e) x y]
    cases h : t.reverse.find? (hitsAt pos x y) with
    | some e' =>
      simp only [h, Option.or_some, overlayStep_width, overlayStep_height]
    | none =>
      simp only [h, Option.none_or, List.find?_singleton]
      rw [overlayStep_get pos fr hwf e x y]
      cases hp : hitsAt pos x y e
      · simp [hp]
      · simp [hp]

theorem execCmds_nil (s : TermSurface) : execCmds s [] = s := rfl

theorem execCmds_cons (s : TermSurface) (c : PaintCmd) (l : List PaintCmd) :
    execCmds s (c :: l) = execCmds (execCmd s c) l := rfl

theorem execCmds_append (s : TermSurface) (l1 l2 : List PaintCmd) :
    execCmds s (l1 ++ l2) = execCmds (execCmds s l1) l2 :=
  List.foldl_append execCmd s l1 l2

theorem exec_writeRow (f : TerminalFrame) (y : Nat) :
    ∀ (n x0 : Nat) (s : TermSurface), s.curX = x0 → s.curY = y →
      (execCmds s ((List.range' x0 n).map
          fun x => PaintCmd.writeCell (cellAt f x y))).curX = x0 + n ∧
      (execCmds s ((List.range' x0 n).map
          fun x => PaintCmd.writeCell (cellAt f x y))).curY = y ∧
      ∀ x' y', (execCmds s ((List.range' x0 n).map
          fun x => PaintCmd.writeCell (cellAt f x y))).grid x' y' =
        if y' = y ∧ x0 ≤ x' ∧ x' < x0 + n then cellAt f x' y' else s.grid x' y' := by
  intro n
  induction n with
  | zero =>
    intro x0 s hx hy
    refine ⟨by simpa [execCmds] using hx, by simpa [execCmds] using hy, ?_⟩
    intro x' y'
    simp only [List.range'_zero, List.map_nil, execCmds_nil]
    rw [if_neg (by omega)]
  | succ m ih =>
    intro x0 s hx hy
    rw [List.range'_succ, List.map_cons, execCmds_cons]
    have h1x : (execCmd s (PaintCmd.writeCell (cellAt f x0 y))).curX = x0 + 1 := by
      simp [execCmd, hx]
    have h1y : (execCmd s (PaintCmd.writeCell (cellAt f x0 y))).curY = y := by
      simp [execCmd, hy]
    obtain ⟨ihx, ihy, ihg⟩ := ih (x0 + 1) (execCmd s (PaintCmd.writeCell (cellAt f x0 y))) h1x h1y
    refine ⟨by rw [ihx]; omega, ihy, ?_⟩
    intro x' y'
    rw [ihg x' y']
    by_cases hc : y' = y ∧ x0 + 1 ≤ x' ∧ x' < x0 + 1 + m
    · rw [if_pos hc, if_pos (by omega)]
    · rw [if_neg hc]
      have hg1 : (execCmd s (PaintCmd.writeCell (cellAt f x0 y))).grid x' y' =
          if x' = x0 ∧ y' = y then cellAt f x0 y else s.grid x' y' := by
        simp [execCmd, hx, hy]
      rw [hg1]
      by_cases hd : x' = x0 ∧ y' = y
      · obtain ⟨rfl, rfl⟩ := hd
        rw [if_pos ⟨rfl, rfl⟩, if_pos (by omega)]
      · rw [if_neg hd]
        have hcond : ¬(y' = y ∧ x0 ≤ x' ∧ x' < x0 + (m + 1)) := by
          rintro ⟨rfl, h2, h3⟩
          rcases Nat.lt_or_ge x' (x0 + 1) with h4 | h4
          · exact hd ⟨by omega, rfl⟩
          · exact hc ⟨rfl, h4, by omega⟩
        rw [if_neg hcond]

theorem rowFilterMap_eq_map (f : TerminalFrame) (hwf : f.wf) {y : Nat} (hy : y < f.height) :
    ((List.range f.width).filterMap fun x => (f.get x y).map PaintCmd.writeCell) =
      (List.range f.width).map fun x => PaintCmd.writeCell (cellAt f x y) := by
  have key : ∀ (l : List Nat), (∀ a ∈ l, a < f.width) →
      (l.filterMap fun x => (f.get x y).map PaintCmd.writeCell) =
        l.map fun x => PaintCmd.writeCell (cellAt f x y) := by
    intro l
    induction l with
    | nil => intro _; rfl
    | cons a t ih =>
      intro h
      rw [List.map_cons,
        List.filterMap_cons_some
          (by rw [TerminalFrame.get_eq_some hwf (h a (by simp)) hy]; rfl),
        ih (fun b hb => h b (by simp [hb]))]
  exact key _ (fun a ha => List.mem_range.mp ha)

theorem exec_rows (f : TerminalFrame) (hwf : f.wf) :
    ∀ (n y0 : Nat) (s : TermSurface), s.curX = 0 → s.curY = y0 → y0 + n = f.height →
      ∀ x' y', (execCmds s ((List.range' y0 n).flatMap (rowPaintCmds f))).grid x' y' =
        if y0 ≤ y' ∧ y' < f.height ∧ x' < f.width then cellAt f x' y' else s.grid x' y' := by
  intro n
  induction n with
  | zero =>
    intro y0 s hx hy hh x' y'
    simp only [List.range'_zero, List.flatMap_nil, execCmds_nil]
    rw [if_neg (by omega)]
  | succ m ih =>
    intro y0 s hx hy hh x' y'
    have hy0 : y0 < f.height := by omega
    rw [List.range'_succ, List.flatMap_cons, execCmds_append]
    have hrow : rowPaintCmds f y0 =
        (((List.range' 0 f.width).map fun x => PaintCmd.writeCell (cellAt f x y0)) ++
          (if y0 < f.height - 1 then [PaintCmd.nextLine] else [])) := by
      unfold rowPaintCmds
      rw [rowFilterMap_eq_map f hwf hy0, List.range_eq_range']
    rw [hrow, execCmds_append]
    obtain ⟨hwx, hwy, hwg⟩ := exec_writeRow f y0 f.width 0 s hx hy
    rcases Nat.eq_zero_or_pos m with hm | hm
    · subst hm
      rw [if_neg (by omega)]
      simp only [List.range'_zero, List.flatMap_nil, execCmds_nil]
      rw [hwg x' y']
      by_cases hc : y' = y0 ∧ 0 ≤ x' ∧ x' < 0 + f.width
      · rw [if_pos hc, if_pos (by omega)]
      · rw [if_neg hc, if_neg (by rintro ⟨h1, h2, h3⟩; exact hc ⟨by omega, by omega, by omega⟩)]
    · rw [if_pos (by omega)]
      have hcur : (execCmds (execCmds s ((List.range' 0 f.width).map
          fun x => PaintCmd.writeCell (cellAt f x y0))) [PaintCmd.nextLine]).curY = y0 + 1 := by
        show (execCmds s ((List.range' 0 f.width).map
          fun x => PaintCmd.writeCell (cellAt f x y0))).curY + 1 = y0 + 1
        rw [hwy]
      rw [ih (y0 + 1) _ rfl hcur (by omega) x' y']
      by_cases hc : y0 + 1 ≤ y' ∧ y' < f.height ∧ x' < f.width
      · rw [if_pos hc, if_pos (by omega)]
      · rw [if_neg hc]
        have hgrid : (execCmds (execCmds s ((List.range' 0 f.width).map
            fun x => PaintCmd.writeCell (cellAt f x y0))) [PaintCmd.nextLine]).grid x' y' =
            if y' = y0 ∧ 0 ≤ x' ∧ x' < 0 + f.width then cellAt f x' y' else s.grid x' y' :=
          hwg x' y'
        rw [hgrid]
        by_cases hd : y' = y0 ∧ 0 ≤ x' ∧ x' < 0 + f.width
        · rw [if_pos hd, if_pos (by omega)]
        · rw [if_neg hd]
          have hcond : ¬(y0 ≤ y' ∧ y' < f.height ∧ x' < f.width) := by
            rintro ⟨h1, h2, h3⟩
            by_cases hyy : y' = y0
            · exact hd ⟨hyy, by omega, by omega⟩
            · exact hc ⟨by omega, h2, h3⟩
          rw [if_neg hcond]

theorem exec_renderFull (f : TerminalFrame) (hwf : f.wf) (s : TermSurface) (x' y' : Nat) :
    (execCmds s (renderFullCmds f)).grid x' y' =
      if y' < f.height ∧ x' < f.width then cellAt f x' y' else s.grid x' y' := by
  unfold renderFullCmds
  rw [execCmds_cons, execCmds_append, List.range_eq_range']
  have hreset : (execCmds (execCmds (execCmd s (PaintCmd.moveTo 0 0))
      ((List.range' 0 f.height).flatMap (rowPaintCmds f))) [PaintCmd.reset]).grid x' y' =
      (execCmds (execCmd s (PaintCmd.moveTo 0 0))
        ((List.range' 0 f.height).flatMap (rowPaintCmds f))).grid x' y' := rfl
  rw [hreset, exec_rows f hwf f.height 0 (execCmd s (PaintCmd.moveTo 0 0)) rfl rfl (by omega) x' y']
  by_cases hc : y' < f.height ∧ x' < f.width
  · rw [if_pos ⟨Nat.zero_le _, hc.1, hc.2⟩, if_pos hc]
  · rw [if_neg (by tauto), if_neg hc]
    rfl

theorem mem_rowMajor {x y w h : Nat} : (x, y) ∈ rowMajor w h ↔ x < w ∧ y < h := by
  unfold rowMajor
  simp only [List.mem_flatMap, List.mem_map, List.mem_range, Prod.mk.injEq]
  constructor
  · rintro ⟨a, ha, x1, hx1, rfl, rfl⟩
    exact ⟨hx1, ha⟩
  · rintro ⟨hx, hy⟩
    exact ⟨y, hy, x, hx, rfl, rfl⟩

theorem exec_diff_fold (old_frame new_frame : TerminalFrame) :
    ∀ (ps : List (Nat × Nat)), (∀ p ∈ ps, p.1 < 65536 ∧ p.2 < 65536) →
      ∀ (acc : DiffAcc) (G : Nat → Nat → Option TerminalCell),
      (∀ s x y, (execCmds s acc.cmds).grid x y = (G x y).getD (s.grid x y)) →
      (∀ s lx ly, acc.lastX = some lx → acc.lastY = some ly →
        (execCmds s acc.cmds).curX = lx ∧ (execCmds s acc.cmds).curY = ly) →
      (∀ s x y, (execCmds s ((ps.foldl (diffStep old_frame new_frame) acc)).cmds).grid x y =
          (if (x, y) ∈ ps then (diffWriteAt old_frame new_frame x y).or (G x y)
            else G x y).getD (s.grid x y)) ∧
      (∀ s lx ly, (ps.foldl (diffStep old_frame new_frame) acc).lastX = some lx →
          (ps.foldl (diffStep old_frame new_frame) acc).lastY = some ly →
        (execCmds s ((ps.foldl (diffStep old_frame new_frame) acc)).cmds).curX = lx ∧
        (execCmds s ((ps.foldl (diffStep old_frame new_frame) acc)).cmds).curY = ly) := by
  intro ps
  induction ps with
  | nil =>
    intro _ acc G hG hC
    refine ⟨?_, by simpa using hC⟩
    intro s x y
    simp only [List.foldl_nil, List.not_mem_nil, if_false]
    exact hG s x y
  | cons p t ih =>
    obtain ⟨px, py⟩ := p
    intro hbound acc G hG hC
    have hbt : ∀ p ∈ t, p.1 < 65536 ∧ p.2 < 65536 :=
      fun z hz => hbound z (List.mem_cons_of_mem _ hz)
    by_cases hch : old_frame.get px py ≠ new_frame.get px py
    · cases hval : new_frame.get px py with
      | none =>
        have hstep : diffStep old_frame new_frame acc (px, py) = acc := by
          unfold diffStep
          dsimp only
          rw [if_pos hch, hval]
        rw [List.foldl_cons, hstep]
        obtain ⟨ih1, ih2⟩ := ih hbt acc G hG hC
        refine ⟨?_, ih2⟩
        intro s x y
        rw [ih1 s x y]
        have hdw : diffWriteAt old_frame new_frame px py = none := by
          unfold diffWriteAt
          rw [if_pos hch, hval]
        by_cases hm : (x, y) ∈ t
        · rw [if_pos hm, if_pos (List.mem_cons_of_mem _ hm)]
        · rw [if_neg hm]
          by_cases hp : x = px ∧ y = py
          · obtain ⟨rfl, rfl⟩ := hp
            rw [if_pos (List.mem_cons.mpr (Or.inl rfl)), hdw, Option.none_or]
          · rw [if_neg (fun hcc => by
              rcases List.mem_cons.mp hcc with h | h
              · exact hp ⟨(Prod.ext_iff.mp h).1, (Prod.ext_iff.mp h).2⟩
              · exact hm h)]
      | some cell =>
        have hpx : px < 65536 := (hbound (px, py) (List.mem_cons_self _ _)).1
        have hpy : py < 65536 := (hbound (px, py) (List.mem_cons_self _ _)).2
        have hdwp : diffWriteAt old_frame new_frame px py = some cell := by
          unfold diffWriteAt
          rw [if_pos hch, hval]
        have hstep : diffStep old_frame new_frame acc (px, py) =
            { lastX := some (px + 1), lastY := some py,
              cmds := acc.cmds ++
                (if acc.lastX ≠ some px ∨ acc.lastY ≠ some py
                  then [PaintCmd.moveTo px py] else []) ++ [PaintCmd.writeCell cell] } := by
          unfold diffStep
          dsimp only
          rw [if_pos hch, hval, Nat.mod_eq_of_lt hpx, Nat.mod_eq_of_lt hpy]
        have hpreg : ∀ s a b, (execCmds s (acc.cmds ++
            (if acc.lastX ≠ some px ∨ acc.lastY ≠ some py
              then [PaintCmd.moveTo px py] else []))).grid a b =
            (execCmds s acc.cmds).grid a b := by
          intro s a b
          rw [execCmds_append]
          by_cases hmv : acc.lastX ≠ some px ∨ acc.lastY ≠ some py
          · rw [if_pos hmv]; rfl
          · rw [if_neg hmv]; rfl
        have hprex : ∀ s, (execCmds s (acc.cmds ++
            (if acc.lastX ≠ some px ∨ acc.lastY ≠ some py
              then [PaintCmd.moveTo px py] else []))).curX = px := by
          intro s
          rw [execCmds_append]
          by_cases hmv : acc.lastX ≠ some px ∨ acc.lastY ≠ some py
          · rw [if_pos hmv]; rfl
          · rw [if_neg hmv]
            push_neg at hmv
            exact (hC s px py hmv.1 hmv.2).1
        have hprey : ∀ s, (execCmds s (acc.cmds ++
            (if acc.lastX ≠ some px ∨ acc.lastY ≠ some py
              then [PaintCmd.moveTo px py] else []))).curY = py := by
          intro s
          rw [execCmds_append]
          by_cases hmv : acc.lastX ≠ some px ∨ acc.lastY ≠ some py
          · rw [if_pos hmv]; rfl
          · rw [if_neg hmv]
            push_neg at hmv
            exact (hC s px py hmv.1 hmv.2).2
        have hG2 : ∀ s x y, (execCmds s (acc.cmds ++
            (if acc.lastX ≠ some px ∨ acc.lastY ≠ some py
              then [PaintCmd.moveTo px py] else []) ++ [PaintCmd.writeCell cell])).grid x y =
            ((fun x y => if x = px ∧ y = py then some cell else G x y) x y).getD
              (s.grid x y) := by
          intro s x y
          dsimp only
          have hwr : ∀ (S : TermSurface), (execCmds S [PaintCmd.writeCell cell]).grid x y =
              if x = S.curX ∧ y = S.curY then cell else S.grid x y := fun S => rfl
          rw [execCmds_append, hwr, hprex s, hprey s]
          by_cases hp : x = px ∧ y = py
          · rw [if_pos hp, if_pos hp]
            rfl
          · rw [if_neg hp, if_neg hp, hpreg s x y, hG s x y]
        have hC2 : ∀ s lx ly,
            (some (px + 1) : Option Nat) = some lx → (some py : Option Nat) = some ly →
            (execCmds s (acc.cmds ++
              (if acc.lastX ≠ some px ∨ acc.lastY ≠ some py
                then [PaintCmd.moveTo px py] else []) ++ [PaintCmd.writeCell cell])).curX = lx ∧
            (execCmds s (acc.cmds ++
              (if acc.lastX ≠ some px ∨ acc.lastY ≠ some py
                then [PaintCmd.moveTo px py] else []) ++ [PaintCmd.writeCell cell])).curY = ly := by
          intro s lx ly hlx hly
          injection hlx with hlx
          injection hly with hly
          subst hlx
          subst hly
          have hwx : ∀ (S : TermSurface),
              (execCmds S [PaintCmd.writeCell cell]).curX = S.curX + 1 := fun S => rfl
          have hwy : ∀ (S : TermSurface),
              (execCmds S [PaintCmd.writeCell cell]).curY = S.curY := fun S => rfl
          rw [execCmds_append, hwx, hwy, hprex s, hprey s]
          exact ⟨rfl, rfl⟩
        rw [List.foldl_cons, hstep]
        obtain ⟨ih1, ih2⟩ := ih hbt
          ⟨some (px + 1), some py, acc.cmds ++
            (if acc.lastX ≠ some px ∨ acc.lastY ≠ some py
              then [PaintCmd.moveTo px py] else []) ++ [PaintCmd.writeCell cell]⟩
          (fun x y => if x = px ∧ y = py then some cell else G x y) hG2 hC2
        refine ⟨?_, ih2⟩
        intro s x y
        rw [ih1 s x y]
        by_cases hm : (x, y) ∈ t
        · rw [if_pos hm, if_pos (List.mem_cons_of_mem _ hm)]
          by_cases hp : x = px ∧ y = py
          · obtain ⟨rfl, rfl⟩ := hp
            rw [if_pos ⟨rfl, rfl⟩, hdwp]
            rfl
          · rw [if_neg hp]
        · rw [if_neg hm]
          by_cases hp : x = px ∧ y = py
          · obtain ⟨rfl, rfl⟩ := hp
            rw [if_pos ⟨rfl, rfl⟩, if_pos (List.mem_cons.mpr (Or.inl rfl)), hdwp]
            rfl
          · rw [if_neg hp, if_neg (fun hcc => by
              rcases List.mem_cons.mp hcc with h | h
              · exact hp ⟨(Prod.ext_iff.mp h).1, (Prod.ext_iff.mp h).2⟩
              · exact hm h)]
    · have hstep : diffStep old_frame new_frame acc (px, py) = acc := by
        unfold diffStep
        dsimp only
        rw [if_neg hch]
      rw [List.foldl_cons, hstep]
      obtain ⟨ih1, ih2⟩ := ih hbt acc G hG hC
      refine ⟨?_, ih2⟩
      intro s x y
      rw [ih1 s x y]
      have hdw : diffWriteAt old_frame new_frame px py = none := by
        unfold diffWriteAt
        rw [if_neg hch]
      by_cases hm : (x, y) ∈ t
      · rw [if_pos hm, if_pos (List.mem_cons_of_mem _ hm)]
      · rw [if_neg hm]
        by_cases hp : x = px ∧ y = py
        · obtain ⟨rfl, rfl⟩ := hp
          rw [if_pos (List.mem_cons.mpr (Or.inl rfl)), hdw, Option.none_or]
        · rw [if_neg (fun hcc => by
            rcases List.mem_cons.mp hcc with h | h
            · exact hp ⟨(Prod.ext_iff.mp h).1, (Prod.ext_iff.mp h).2⟩
            · exact hm h)]

theorem exec_renderDiff (old_frame new_frame : TerminalFrame)
    (hw : old_frame.width = new_frame.width) (hh : old_frame.height = new_frame.height)
    (hwb : new_frame.width ≤ 65536) (hhb : new_frame.height ≤ 65536)
    (s : TermSurface) (x y : Nat) :
    (execCmds s (renderDiffCmds old_frame new_frame)).grid x y =
      (if x < new_frame.width ∧ y < new_frame.height
        then diffWriteAt old_frame new_frame x y else none).getD (s.grid x y) := by
  unfold renderDiffCmds
  rw [if_neg (by rw [hw, hh]; simp)]
  have hbound : ∀ p ∈ rowMajor new_frame.width new_frame.height,
      p.1 < 65536 ∧ p.2 < 65536 := by
    intro p hp
    obtain ⟨a, b⟩ := p
    have := mem_rowMajor.mp hp
    exact ⟨by omega, by omega⟩
  obtain ⟨h1, _⟩ := exec_diff_fold old_frame new_frame
    (rowMajor new_frame.width new_frame.height) hbound ⟨none, none, []⟩ (fun _ _ => none)
    (fun s x y => rfl) (fun s lx ly h _ => nomatch h)
  have hreset : ∀ (l : List PaintCmd),
      (execCmds s (l ++ [PaintCmd.reset])).grid x y = (execCmds s l).grid x y := by
    intro l
    rw [execCmds_append]
    rfl
  rw [hreset, h1 s x y]
  by_cases hm : (x, y) ∈ rowMajor new_frame.width new_frame.height
  · rw [if_pos hm, if_pos (mem_rowMajor.mp hm), Option.or_none]
  · rw [if_neg hm, if_neg (fun hc => hm (mem_rowMajor.mpr hc))]

theorem pixel_offset_lt {img : RgbImage} (hwf : img.wf) {x y : Nat}
    (hx : x < img.width) (hy : y < img.height) :
    (y * img.width + x) * 3 + 2 < img.data.length := by
  have h2 : y * img.width + x < (y + 1) * img.width := by
    rw [Nat.add_mul, Nat.one_mul]
    omega
  have h3 : (y + 1) * img.width ≤ img.height * img.width := Nat.mul_le_mul_right _ hy
  have h4 : img.height * img.width = img.width * img.height := Nat.mul_comm _ _
  unfold RgbImage.wf at hwf
  omega

theorem get_pixel_some {img : RgbImage} (hwf : img.wf) {x y : Nat}
    (hx : x < img.width) (hy : y < img.height) :
    img.get_pixel x y = some (pixelAt img x y) := by
  have h := pixel_offset_lt hwf hx hy
  unfold RgbImage.get_pixel pixelAt
  dsimp only
  rw [List.getElem?_eq_getElem (by omega : (y * img.width + x) * 3 < img.data.length),
    List.getElem?_eq_getElem (by omega : (y * img.width + x) * 3 + 1 < img.data.length),
    List.getElem?_eq_getElem (by omega : (y * img.width + x) * 3 + 2 < img.data.length)]
  rfl

theorem get_pixel_none_iff (img : RgbImage) (x y : Nat) :
    img.get_pixel x y = none ↔ img.data.length ≤ (y * img.width + x) * 3 + 2 := by
  unfold RgbImage.get_pixel
  dsimp only
  constructor
  · intro h
    by_contra hlt
    push_neg at hlt
    rw [List.getElem?_eq_getElem (by omega : (y * img.width + x) * 3 < img.data.length),
      List.getElem?_eq_getElem (by omega : (y * img.width + x) * 3 + 1 < img.data.length),
      List.getElem?_eq_getElem (by omega : (y * img.width + x) * 3 + 2 < img.data.length)] at h
    exact Option.noConfusion h
  · intro h
    have h2 : img.data[(y * img.width + x) * 3 + 2]? = none := List.getElem?_eq_none h
    cases hA : img.data[(y * img.width + x) * 3]? with
    | none => simp [hA]
    | some rv =>
      cases hB : img.data[(y * img.width + x) * 3 + 1]? with
      | none => simp [hA, hB]
      | some gv => simp [hA, hB, h2]

theorem convert_cell_eq {q : ColorQuantizer} {img : RgbImage} (hwf : img.wf)
    {x y : Nat} (hx : x < img.width) (hytop : y * 2 < img.height) :
    HalfBlockConverter.convert_cell q img x y =
      some (if q.quantize (pixelAt img x (y * 2)) =
          q.quantize (if y * 2 + 1 < img.height then pixelAt img x (y * 2 + 1)
            else pixelAt img x (y * 2)) then
        ⟨FULL_BLOCK, q.quantize (pixelAt img x (y * 2)),
          q.quantize (pixelAt img x (y * 2))⟩
      else
        ⟨UPPER_HALF_BLOCK, q.quantize (pixelAt img x (y * 2)),
          q.quantize (if y * 2 + 1 < img.height then pixelAt img x (y * 2 + 1)
            else pixelAt img x (y * 2))⟩) := by
  unfold HalfBlockConverter.convert_cell
  by_cases hb : y * 2 + 1 < img.height
  · rw [if_pos hb, if_pos hb, get_pixel_some hwf hx (by omega), get_pixel_some hwf hx hb]
    simp only [Option.pure_def, Option.bind_eq_bind, Option.some_bind]
    split <;> rfl
  · rw [if_neg hb, if_neg hb, get_pixel_some hwf hx hytop]
    simp only [Option.pure_def, Option.bind_eq_bind, Option.some_bind]
    split <;> rfl

theorem mapM_isSome {α β : Type} (f : α → Option β) :
    ∀ (l : List α), (∀ a ∈ l, (f a).isSome) → (l.mapM f).isSome := by
  intro l
  induction l with
  | nil => intro _; rfl
  | cons a t ih =>
    intro h
    rw [List.mapM_cons]
    obtain ⟨b, hb⟩ := Option.isSome_iff_exists.mp (h a (by simp))
    obtain ⟨bs, hbs⟩ := Option.isSome_iff_exists.mp (ih (fun z hz => h z (by simp [hz])))
    have hbs' : List.mapM.loop f t [] = some bs := hbs
    simp [hb, hbs, hbs']

theorem convert_isSome (q : ColorQuantizer) (img : RgbImage) (tw th : Nat) (hwf : img.wf)
    (hw : tw ≤ img.width) (hh : 2 * th - 1 ≤ img.height) :
    (HalfBlockConverter.convert q img tw th).isSome := by
  unfold HalfBlockConverter.convert
  have hrows : ((List.range th).mapM (fun y =>
      (List.range tw).mapM (fun x => HalfBlockConverter.convert_cell q img x y))).isSome := by
    apply mapM_isSome
    intro y hy
    have hy' : y < th := List.mem_range.mp hy
    apply mapM_isSome
    intro x hx
    have hx' : x < tw := List.mem_range.mp hx
    rw [convert_cell_eq hwf (by omega) (by omega)]
    rfl
  obtain ⟨rows, hrowsEq⟩ := Option.isSome_iff_exists.mp hrows
  rw [hrowsEq]
  rfl

theorem foldl_diffStep_self (f : TerminalFrame) :
    ∀ (ps : List (Nat × Nat)) (acc : DiffAcc), ps.foldl (diffStep f f) acc = acc := by
  intro ps
  induction ps with
  | nil => intro acc; rfl
  | cons p t ih =>
    intro acc
    rw [List.foldl_cons]
    have hstep : diffStep f f acc p = acc := by
      unfold diffStep
      rw [if_neg (by simp)]
    rw [hstep, ih acc]

theorem overlay_fold_width (pos : CursorPosition) :
    ∀ (l : List (Nat × Nat × Char)) (fr : TerminalFrame),
      (l.foldl (overlayStep pos) fr).width = fr.width := by
  intro l
  induction l with
  | nil => intro fr; rfl
  | cons e t ih =>
    intro fr
    rw [List.foldl_cons, ih, overlayStep_width]

theorem overlay_fold_height (pos : CursorPosition) :
    ∀ (l : List (Nat × Nat × Char)) (fr : TerminalFrame),
      (l.foldl (overlayStep pos) fr).height = fr.height := by
  intro l
  induction l with
  | nil => intro fr; rfl
  | cons e t ih =>
    intro fr
    rw [List.foldl_cons, ih, overlayStep_height]

theorem foldl_diffStep_unchanged (old_frame new_frame : TerminalFrame) :
    ∀ (ps : List (Nat × Nat)) (acc : DiffAcc),
      (∀ p ∈ ps, old_frame.get p.1 p.2 = new_frame.get p.1 p.2) →
      ps.foldl (diffStep old_frame new_frame) acc = acc := by
  intro ps
  induction ps with
  | nil => intro acc _; rfl
  | cons p t ih =>
    intro acc h
    rw [List.foldl_cons]
    have hstep : diffStep old_frame new_frame acc p = acc := by
      unfold diffStep
      rw [if_neg (by simp [h p (List.mem_cons_self _ _)])]
    rw [hstep, ih acc (fun z hz => h z (List.mem_cons_of_mem _ hz))]

theorem diffStep_start_changed (old_frame new_frame : TerminalFrame) (x y : Nat)
    (c : TerminalCell) (hch : old_frame.get x y ≠ new_frame.get x y)
    (hval : new_frame.get x y = some c) :
    diffStep old_frame new_frame ⟨none, none, []⟩ (x, y) =
      ⟨some (x + 1), some y,
        [PaintCmd.moveTo (x % 65536) (y % 65536), PaintCmd.writeCell c]⟩ := by
  unfold diffStep
  dsimp only
  rw [if_pos hch, hval, if_pos (Or.inl (by simp))]
  rfl

theorem renderDiff_wide_single_change (c0 c1 : TerminalCell) (hne : c0 ≠ c1) :
    renderDiffCmds (TerminalFrame.mk (List.replicate 65537 c0) 65537 1)
      (TerminalFrame.mk ((List.replicate 65537 c0).set 65536 c1) 65537 1) =
      [PaintCmd.moveTo 0 0, PaintCmd.writeCell c1, PaintCmd.reset] := by
  have hold : (TerminalFrame.mk (List.replicate 65537 c0) 65537 1).get 65536 0 = some c0 := by
    show (if 65536 < 65537 ∧ 0 < 1 then (List.replicate 65537 c0)[0 * 65537 + 65536]?
      else none) = some c0
    rw [if_pos ⟨by omega, by omega⟩,
      show (0 * 65537 + 65536 : Nat) = 65536 from by norm_num,
      List.getElem?_replicate, if_pos (by omega)]
  have hnew : (TerminalFrame.mk ((List.replicate 65537 c0).set 65536 c1) 65537 1).get
      65536 0 = some c1 := by
    show (if 65536 < 65537 ∧ 0 < 1 then
      ((List.replicate 65537 c0).set 65536 c1)[0 * 65537 + 65536]? else none) = some c1
    rw [if_pos ⟨by omega, by omega⟩,
      show (0 * 65537 + 65536 : Nat) = 65536 from by norm_num, List.getElem?_set,
      if_pos rfl, List.length_replicate, if_pos (by omega)]
  have hsame : ∀ p ∈ (List.range 65536).map (fun x => (x, (0 : Nat))),
      (TerminalFrame.mk (List.replicate 65537 c0) 65537 1).get p.1 p.2 =
      (TerminalFrame.mk ((List.replicate 65537 c0).set 65536 c1) 65537 1).get p.1 p.2 := by
    intro p hp
    obtain ⟨x, hx, rfl⟩ := List.mem_map.mp hp
    have hxlt : x < 65536 := List.mem_range.mp hx
    show (if x < 65537 ∧ 0 < 1 then (List.replicate 65537 c0)[0 * 65537 + x]? else none) =
      (if x < 65537 ∧ 0 < 1 then
        ((List.replicate 65537 c0).set 65536 c1)[0 * 65537 + x]? else none)
    rw [if_pos ⟨by omega, by omega⟩, if_pos ⟨by omega, by omega⟩, List.getElem?_set,
      if_neg (by omega)]
  unfold renderDiffCmds
  rw [if_neg (by simp)]
  dsimp only
  rw [show rowMajor 65537 1 = (List.range 65537).map (fun x => (x, 0)) from by
      unfold rowMajor
      rw [show List.range 1 = [0] from rfl, List.flatMap_cons, List.flatMap_nil,
        List.append_nil],
    show List.range 65537 = List.range 65536 ++ [65536] from by
      rw [show (65537 : Nat) = 65536 + 1 from rfl, List.range_succ],
    List.map_append, List.foldl_append, foldl_diffStep_unchanged _ _ _ _ hsame]
  rw [show List.map (fun x => (x, (0 : Nat))) [65536] = [(65536, 0)] from rfl,
    List.foldl_cons, List.foldl_nil,
    diffStep_start_changed _ _ 65536 0 c1
      (by rw [hold, hnew]; exact fun h => hne (Option.some.inj h)) hnew,
    show (65536 % 65536 : Nat) = 0 from by norm_num]
  rfl

theorem renderFull_wide_at_origin (c0 c1 : TerminalCell) (s0 : TermSurface) :
    (execCmds s0 (renderFullCmds
      (TerminalFrame.mk ((List.replicate 65537 c0).set 65536 c1) 65537 1))).grid 0 0 =
      c0 := by
  have hwf : (TerminalFrame.mk ((List.replicate 65537 c0).set 65536 c1) 65537 1).wf := by
    show ((List.replicate 65537 c0).set 65536 c1).length = 65537 * 1
    rw [List.length_set, List.length_replicate]
  rw [exec_renderFull _ hwf s0 0 0]
  show (if 0 < 1 ∧ 0 < 65537 then
    cellAt (TerminalFrame.mk ((List.replicate 65537 c0).set 65536 c1) 65537 1) 0 0
    else s0.grid 0 0) = c0
  rw [if_pos (by omega : (0 : Nat) < 1 ∧ (0 : Nat) < 65537)]
  show ((List.replicate 65537 c0).set 65536 c1)[0 * 65537 + 0]?.getD ⟨' ', 0, 0⟩ = c0
  rw [show (0 * 65537 + 0 : Nat) = 0 from by norm_num, List.getElem?_set,
    if_neg (by omega), List.getElem?_replicate, if_pos (by omega)]
  rfl

theorem exec_three_cmds_origin (S : TermSurface) (c : TerminalCell) :
    (execCmds S [PaintCmd.moveTo 0 0, PaintCmd.writeCell c, PaintCmd.reset]).grid 0 0 =
      c := rfl

/-! ### Claim theorems -/

/-- C1 (amended): for any two terminal frames `old_frame` and `new_frame`
of equal width and height, both at most `65536` (so every cell coordinate
fits the `u16` of the emitted `MoveTo`), applying the command stream
emitted by the differential paint of `new_frame` (with `old_frame` as
front buffer) to a terminal surface that currently shows a full paint of
`old_frame` leaves the surface cell-for-cell identical to the surface
produced by a full paint of `new_frame`. -/
theorem diff_paint_equals_full_paint (old_frame new_frame : TerminalFrame)
    (hw : old_frame.width = new_frame.width) (hh : old_frame.height = new_frame.height)
    (hwb : new_frame.width ≤ 65536) (hhb : new_frame.height ≤ 65536)
    (hwfo : old_frame.wf) (hwfn : new_frame.wf) (s0 : TermSurface) (x y : Nat) :
    (execCmds (execCmds s0 (renderFullCmds old_frame))
        (renderDiffCmds old_frame new_frame)).grid x y =
      (execCmds s0 (renderFullCmds new_frame)).grid x y := by
  rw [exec_renderDiff old_frame new_frame hw hh hwb hhb, exec_renderFull new_frame hwfn,
    exec_renderFull old_frame hwfo]
  by_cases hin : x < new_frame.width ∧ y < new_frame.height
  · rw [if_pos hin,
      if_pos (show y < new_frame.height ∧ x < new_frame.width from ⟨hin.2, hin.1⟩)]
    unfold diffWriteAt
    by_cases hch : old_frame.get x y ≠ new_frame.get x y
    · rw [if_pos hch, TerminalFrame.get_eq_some hwfn hin.1 hin.2]
      rfl
    · rw [if_neg hch]
      push_neg at hch
      rw [if_pos (⟨by omega, by omega⟩ : y < old_frame.height ∧ x < old_frame.width)]
      have h1 := TerminalFrame.get_eq_some hwfo
        (show x < old_frame.width by omega) (show y < old_frame.height by omega)
      have h2 := TerminalFrame.get_eq_some hwfn hin.1 hin.2
      rw [hch] at h1
      exact Option.some.inj (h1.symm.trans h2)
  · rw [if_neg hin,
      if_neg (show ¬(y < new_frame.height ∧ x < new_frame.width) from
        fun hc => hin ⟨hc.2, hc.1⟩),
      if_neg (show ¬(y < old_frame.height ∧ x < old_frame.width) by
        intro hc; exact hin ⟨by omega, by omega⟩)]
    rfl

/-- C1 witness: a concrete 2×1 pair of frames, surface and cell. -/
theorem diff_paint_equals_full_paint_witness :
    ((TerminalFrame.mk [⟨' ', 0, 0⟩, ⟨' ', 0, 0⟩] 2 1).wf ∧
      (TerminalFrame.mk [⟨' ', 0, 0⟩, ⟨'▀', 15, 0⟩] 2 1).wf) ∧
    (execCmds (execCmds ⟨fun _ _ => ⟨' ', 0, 0⟩, 0, 0⟩
        (renderFullCmds (TerminalFrame.mk [⟨' ', 0, 0⟩, ⟨' ', 0, 0⟩] 2 1)))
        (renderDiffCmds (TerminalFrame.mk [⟨' ', 0, 0⟩, ⟨' ', 0, 0⟩] 2 1)
          (TerminalFrame.mk [⟨' ', 0, 0⟩, ⟨'▀', 15, 0⟩] 2 1))).grid 1 0 =
      (execCmds ⟨fun _ _ => ⟨' ', 0, 0⟩, 0, 0⟩
        (renderFullCmds (TerminalFrame.mk [⟨' ', 0, 0⟩, ⟨'▀', 15, 0⟩] 2 1))).grid 1 0 :=
  ⟨⟨by decide, by decide⟩,
    diff_paint_equals_full_paint (TerminalFrame.mk [⟨' ', 0, 0⟩, ⟨' ', 0, 0⟩] 2 1)
      (TerminalFrame.mk [⟨' ', 0, 0⟩, ⟨'▀', 15, 0⟩] 2 1) rfl rfl (by decide) (by decide)
      (by decide) (by decide) ⟨fun _ _ => ⟨' ', 0, 0⟩, 0, 0⟩ 1 0⟩

/-- C1 counterexample: the unrestricted claim fails on a 65537×1 frame
pair whose only change is at cell `(65536, 0)`: the diff paint emits
`MoveTo(65536 as u16, 0)`, which wraps to column 0, so the diff-painted
surface holds the new cell at `(0, 0)` while a full paint of the new
frame leaves the old cell there. The two frames have equal dimensions and
are well formed, yet the surfaces differ at `(0, 0)`. -/
theorem diff_paint_wide_frame_counterexample :
    (TerminalFrame.mk (List.replicate 65537 ⟨' ', 0, 0⟩) 65537 1).width =
      (TerminalFrame.mk ((List.replicate 65537 (⟨' ', 0, 0⟩ : TerminalCell)).set 65536
        ⟨'▀', 15, 0⟩) 65537 1).width ∧
    (TerminalFrame.mk (List.replicate 65537 ⟨' ', 0, 0⟩) 65537 1).height =
      (TerminalFrame.mk ((List.replicate 65537 (⟨' ', 0, 0⟩ : TerminalCell)).set 65536
        ⟨'▀', 15, 0⟩) 65537 1).height ∧
    (TerminalFrame.mk (List.replicate 65537 (⟨' ', 0, 0⟩ : TerminalCell)) 65537 1).wf ∧
    (TerminalFrame.mk ((List.replicate 65537 (⟨' ', 0, 0⟩ : TerminalCell)).set 65536
      ⟨'▀', 15, 0⟩) 65537 1).wf ∧
    ¬((execCmds (execCmds ⟨fun _ _ => ⟨' ', 0, 0⟩, 0, 0⟩
        (renderFullCmds (TerminalFrame.mk (List.replicate 65537 ⟨' ', 0, 0⟩) 65537 1)))
        (renderDiffCmds (TerminalFrame.mk (List.replicate 65537 ⟨' ', 0, 0⟩) 65537 1)
          (TerminalFrame.mk ((List.replicate 65537 (⟨' ', 0, 0⟩ : TerminalCell)).set 65536
            ⟨'▀', 15, 0⟩) 65537 1))).grid 0 0 =
      (execCmds ⟨fun _ _ => ⟨' ', 0, 0⟩, 0, 0⟩
        (renderFullCmds (TerminalFrame.mk
          ((List.replicate 65537 (⟨' ', 0, 0⟩ : TerminalCell)).set 65536
            ⟨'▀', 15, 0⟩) 65537 1))).grid 0 0) := by
  refine ⟨rfl, rfl, ?_, ?_, ?_⟩
  · show (List.replicate 65537 (⟨' ', 0, 0⟩ : TerminalCell)).length = 65537 * 1
    rw [List.length_replicate]
  · show ((List.replicate 65537 (⟨' ', 0, 0⟩ : TerminalCell)).set 65536
      ⟨'▀', 15, 0⟩).length = 65537 * 1
    rw [List.length_set, List.length_replicate]
  · intro heq
    rw [renderDiff_wide_single_change ⟨' ', 0, 0⟩ ⟨'▀', 15, 0⟩ (by decide),
      exec_three_cmds_origin, renderFull_wide_at_origin] at heq
    exact absurd heq (by decide)

/-- C2: for a cell `(x, y)` of the half-block converter with the top pixel
row `2 * y` in bounds, the converter reads the top pixel at `(x, 2y)` and
the bottom pixel at `(x, 2y + 1)` (duplicating the top when the bottom row
is out of bounds); if the two quantized colors agree the cell is a full
block with foreground = background = that color, otherwise an upper half
block with foreground = top and background = bottom. -/
theorem halfblock_cell_matches_quantized_pixels (q : ColorQuantizer) (img : RgbImage)
    (x y : Nat) (hwf : img.wf) (hx : x < img.width) (hy : 2 * y < img.height) :
    ∃ topRgb botRgb : Rgb,
      img.get_pixel x (2 * y) = some topRgb ∧
      (if 2 * y + 1 < img.height then img.get_pixel x (2 * y + 1) = some botRgb
        else botRgb = topRgb) ∧
      HalfBlockConverter.convert_cell q img x y =
        some (if q.quantize topRgb = q.quantize botRgb then
            ⟨FULL_BLOCK, q.quantize topRgb, q.quantize topRgb⟩
          else ⟨UPPER_HALF_BLOCK, q.quantize topRgb, q.quantize botRgb⟩) := by
  have hmul : y * 2 = 2 * y := Nat.mul_comm y 2
  refine ⟨pixelAt img x (2 * y),
    (if 2 * y + 1 < img.height then pixelAt img x (2 * y + 1) else pixelAt img x (2 * y)),
    get_pixel_some hwf hx hy, ?_, ?_⟩
  · by_cases hb : 2 * y + 1 < img.height
    · rw [if_pos hb, if_pos hb]
      exact get_pixel_some hwf hx hb
    · rw [if_neg hb, if_neg hb]
  · rw [convert_cell_eq hwf hx (by omega), hmul]

/-- C2 witness: a 1×2 white-over-black image under the identity table. -/
theorem halfblock_cell_matches_quantized_pixels_witness :
    ((RgbImage.mk [255, 255, 255, 0, 0, 0] 1 2).wf ∧ (0 : Nat) < 1 ∧ (0 : Nat) < 2) ∧
    (∃ topRgb botRgb : Rgb,
      (RgbImage.mk [255, 255, 255, 0, 0, 0] 1 2).get_pixel 0 (2 * 0) = some topRgb ∧
      (if 2 * 0 + 1 < (RgbImage.mk [255, 255, 255, 0, 0, 0] 1 2).height then
        (RgbImage.mk [255, 255, 255, 0, 0, 0] 1 2).get_pixel 0 (2 * 0 + 1) = some botRgb
        else botRgb = topRgb) ∧
      HalfBlockConverter.convert_cell ⟨fun n => n⟩
          (RgbImage.mk [255, 255, 255, 0, 0, 0] 1 2) 0 0 =
        some (if ColorQuantizer.quantize ⟨fun n => n⟩ topRgb =
            ColorQuantizer.quantize ⟨fun n => n⟩ botRgb then
            ⟨FULL_BLOCK, ColorQuantizer.quantize ⟨fun n => n⟩ topRgb,
              ColorQuantizer.quantize ⟨fun n => n⟩ topRgb⟩
          else ⟨UPPER_HALF_BLOCK, ColorQuantizer.quantize ⟨fun n => n⟩ topRgb,
            ColorQuantizer.quantize ⟨fun n => n⟩ botRgb⟩)) :=
  ⟨⟨by decide, by decide, by decide⟩,
    halfblock_cell_matches_quantized_pixels ⟨fun n => n⟩
      (RgbImage.mk [255, 255, 255, 0, 0, 0] 1 2) 0 0 (by decide) (by decide) (by decide)⟩

/-- C3: `quantize` depends only on the top 5 bits of each channel: for
every 8-bit `rgb`, `quantize rgb` equals `quantize` of the color obtained
by truncating each channel to its top 5 bits and bit-replicating them back
to 8 bits, `(c >> 3) << 3 | (c >> 3) >> 2`. -/
theorem quantize_depends_on_top5 (q : ColorQuantizer) (rgb : Rgb)
    (hr : rgb.r < 256) (hg : rgb.g < 256) (hb : rgb.b < 256) :
    q.quantize rgb = q.quantize (Rgb.new
      (((rgb.r >>> 3) <<< 3) ||| ((rgb.r >>> 3) >>> 2))
      (((rgb.g >>> 3) <<< 3) ||| ((rgb.g >>> 3) >>> 2))
      (((rgb.b >>> 3) <<< 3) ||| ((rgb.b >>> 3) >>> 2))) := by
  have key : ∀ c < 256, (((c >>> 3) <<< 3) ||| ((c >>> 3) >>> 2)) >>> 3 = c >>> 3 := by
    decide
  unfold ColorQuantizer.quantize
  rw [show (Rgb.new (((rgb.r >>> 3) <<< 3) ||| ((rgb.r >>> 3) >>> 2))
      (((rgb.g >>> 3) <<< 3) ||| ((rgb.g >>> 3) >>> 2))
      (((rgb.b >>> 3) <<< 3) ||| ((rgb.b >>> 3) >>> 2))).r =
      ((rgb.r >>> 3) <<< 3) ||| ((rgb.r >>> 3) >>> 2) from rfl,
    show (Rgb.new (((rgb.r >>> 3) <<< 3) ||| ((rgb.r >>> 3) >>> 2))
      (((rgb.g >>> 3) <<< 3) ||| ((rgb.g >>> 3) >>> 2))
      (((rgb.b >>> 3) <<< 3) ||| ((rgb.b >>> 3) >>> 2))).g =
      ((rgb.g >>> 3) <<< 3) ||| ((rgb.g >>> 3) >>> 2) from rfl,
    show (Rgb.new (((rgb.r >>> 3) <<< 3) ||| ((rgb.r >>> 3) >>> 2))
      (((rgb.g >>> 3) <<< 3) ||| ((rgb.g >>> 3) >>> 2))
      (((rgb.b >>> 3) <<< 3) ||| ((rgb.b >>> 3) >>> 2))).b =
      ((rgb.b >>> 3) <<< 3) ||| ((rgb.b >>> 3) >>> 2) from rfl,
    key rgb.r hr, key rgb.g hg, key rgb.b hb]

/-- C3 witness: the color (200, 100, 50) under the identity table. -/
theorem quantize_depends_on_top5_witness :
    ((Rgb.new 200 100 50).r < 256 ∧ (Rgb.new 200 100 50).g < 256 ∧
      (Rgb.new 200 100 50).b < 256) ∧
    ColorQuantizer.quantize ⟨fun n => n⟩ (Rgb.new 200 100 50) =
      ColorQuantizer.quantize ⟨fun n => n⟩ (Rgb.new
        ((((Rgb.new 200 100 50).r >>> 3) <<< 3) ||| (((Rgb.new 200 100 50).r >>> 3) >>> 2))
        ((((Rgb.new 200 100 50).g >>> 3) <<< 3) ||| (((Rgb.new 200 100 50).g >>> 3) >>> 2))
        ((((Rgb.new 200 100 50).b >>> 3) <<< 3) |||
          (((Rgb.new 200 100 50).b >>> 3) >>> 2))) :=
  ⟨⟨by decide, by decide, by decide⟩,
    quantize_depends_on_top5 ⟨fun n => n⟩ (Rgb.new 200 100 50)
      (by decide) (by decide) (by decide)⟩

/-- C4: after a frame has been painted (so the front buffer equals it),
rendering the same frame again emits only the attribute reset `ESC[0m`:
the command stream is exactly the reset, so its bytes are `"\x1b[0m"` and
it contains no cursor moves, no SGR color sequences and no glyphs. -/
theorem rerender_same_frame_only_reset (front : Option TerminalFrame) (f : TerminalFrame) :
    (Renderer.render (Renderer.render front f).2 f).1 = [PaintCmd.reset] ∧
    cmdsToString (Renderer.render (Renderer.render front f).2 f).1 = "\x1b[0m" := by
  have h2 : (Renderer.render front f).2 = some f := by
    unfold Renderer.render
    cases front <;> rfl
  rw [h2]
  have hd : renderDiffCmds f f = [PaintCmd.reset] := by
    unfold renderDiffCmds
    rw [if_neg (by simp), foldl_diffStep_self]
    rfl
  constructor
  · show renderDiffCmds f f = [PaintCmd.reset]
    exact hd
  · show cmdsToString (renderDiffCmds f f) = "\x1b[0m"
    rw [hd]
    rfl

/-- C5: `render` performs a full paint when no front buffer exists or when
the front buffer's dimensions differ from the new frame's, and in every
case the front buffer afterwards equals the new frame, so the front buffer
always has the dimensions of the last painted frame. -/
theorem render_full_paint_dispatch (front : Option TerminalFrame)
    (new_frame : TerminalFrame) :
    (front = none → (Renderer.render front new_frame).1 = renderFullCmds new_frame) ∧
    (∀ old_frame, front = some old_frame →
      old_frame.width ≠ new_frame.width ∨ old_frame.height ≠ new_frame.height →
      (Renderer.render front new_frame).1 = renderFullCmds new_frame) ∧
    (Renderer.render front new_frame).2 = some new_frame := by
  refine ⟨?_, ?_, ?_⟩
  · rintro rfl
    rfl
  · rintro old_frame rfl hmm
    show renderDiffCmds old_frame new_frame = renderFullCmds new_frame
    unfold renderDiffCmds
    rw [if_pos hmm]
  · unfold Renderer.render
    cases front <;> rfl

/-- C5 witness: a missing front buffer and a mismatched front buffer, both
against a 1×1 frame. -/
theorem render_full_paint_dispatch_witness :
    ((Renderer.render none (TerminalFrame.new 1 1)).1 =
      renderFullCmds (TerminalFrame.new 1 1)) ∧
    ((Renderer.render (some (TerminalFrame.new 2 1)) (TerminalFrame.new 1 1)).1 =
      renderFullCmds (TerminalFrame.new 1 1)) ∧
    (Renderer.render none (TerminalFrame.new 1 1)).2 = some (TerminalFrame.new 1 1) :=
  ⟨(render_full_paint_dispatch none (TerminalFrame.new 1 1)).1 rfl,
    (render_full_paint_dispatch (some (TerminalFrame.new 2 1)) (TerminalFrame.new 1 1)).2.1
      (TerminalFrame.new 2 1) rfl (by decide),
    (render_full_paint_dispatch none (TerminalFrame.new 1 1)).2.2⟩

/-- C6 counterexample: on a 6×5 frame of default cells with the cursor at
the origin, the overlay changes 16 cells, which is more than the 13 the
claim allows. -/
theorem cursor_overlay_changes_sixteen :
    13 < (((List.range 6).flatMap (fun x => (List.range 5).map (fun y => (x, y)))).filter
      (fun p => decide ((overlayCursor (TerminalFrame.new 6 5) ⟨0, 0⟩).get p.1 p.2 ≠
        (TerminalFrame.new 6 5).get p.1 p.2))).length := by
  decide

/-- C6 (amended): for every frame and cursor position, the overlay
overwrites at most 16 cells, the arrow-shaped bitmap; each bitmap cell
that lies inside the frame is overwritten with its glyph and
foreground = background = `AnsiColor(16)`; bitmap cells outside the frame
are silently skipped; and every cell not covered by the bitmap is left
unchanged. -/
theorem cursor_overlay_sixteen_cells (frame : TerminalFrame) (pos : CursorPosition)
    (hwf : frame.wf) :
    cursorBitmap.length = 16 ∧
    (∀ e ∈ cursorBitmap, pos.x + e.1 < frame.width → pos.y + e.2.1 < frame.height →
      (overlayCursor frame pos).get (pos.x + e.1) (pos.y + e.2.1) =
        some ⟨e.2.2, 16, 16⟩) ∧
    (∀ x y, (overlayCursor frame pos).get x y ≠ frame.get x y →
      ∃ e ∈ cursorBitmap, x = pos.x + e.1 ∧ y = pos.y + e.2.1 ∧
        x < frame.width ∧ y < frame.height ∧
        (overlayCursor frame pos).get x y = some ⟨e.2.2, 16, 16⟩) := by
  refine ⟨rfl, ?_, ?_⟩
  · intro e he hx hy
    have hfind : (cursorBitmap.reverse.find?
        (hitsAt pos (pos.x + e.1) (pos.y + e.2.1))).isSome := by
      rw [List.find?_isSome]
      refine ⟨e, List.mem_reverse.mpr he, ?_⟩
      unfold hitsAt
      simp
    obtain ⟨e', he'⟩ := Option.isSome_iff_exists.mp hfind
    have hpe' := List.find?_some he'
    have hme' : e' ∈ cursorBitmap := List.mem_reverse.mp (List.mem_of_find?_eq_some he')
    have hhit : pos.x + e'.1 = pos.x + e.1 ∧ pos.y + e'.2.1 = pos.y + e.2.1 := by
      unfold hitsAt at hpe'
      simpa [Bool.and_eq_true, beq_iff_eq] using hpe'
    have hinj : ∀ a ∈ cursorBitmap, ∀ b ∈ cursorBitmap,
        a.1 = b.1 → a.2.1 = b.2.1 → a = b := by decide
    have hee : e' = e := hinj e' hme' e he (by omega) (by omega)
    subst hee
    unfold overlayCursor
    rw [overlay_fold_get pos cursorBitmap frame hwf]
    simp only [he']
    rw [if_pos ⟨hx, hy⟩]
  · intro x y hne
    have hchar := overlay_fold_get pos cursorBitmap frame hwf x y
    cases hf : cursorBitmap.reverse.find? (hitsAt pos x y) with
    | none =>
      simp only [hf] at hchar
      exact absurd hchar hne
    | some e' =>
      simp only [hf] at hchar
      by_cases hin : x < frame.width ∧ y < frame.height
      · rw [if_pos hin] at hchar
        have hpe' := List.find?_some hf
        have hme' : e' ∈ cursorBitmap := List.mem_reverse.mp (List.mem_of_find?_eq_some hf)
        have hhit : pos.x + e'.1 = x ∧ pos.y + e'.2.1 = y := by
          unfold hitsAt at hpe'
          simpa [Bool.and_eq_true, beq_iff_eq] using hpe'
        exact ⟨e', hme', hhit.1.symm, hhit.2.symm, hin.1, hin.2, hchar⟩
      · rw [if_neg hin] at hchar
        rw [TerminalFrame.get_oob hin] at hne
        exact absurd hchar hne

/-- C6 witness for the amended claim: the 6×5 default frame with the
cursor at the origin; the bitmap's first entry is painted black. -/
theorem cursor_overlay_sixteen_cells_witness :
    (TerminalFrame.new 6 5).wf ∧ cursorBitmap.length = 16 ∧
    (overlayCursor (TerminalFrame.new 6 5) ⟨0, 0⟩).get 0 0 = some ⟨'█', 16, 16⟩ :=
  ⟨by decide, (cursor_overlay_sixteen_cells (TerminalFrame.new 6 5) ⟨0, 0⟩ (by decide)).1,
    by
      have h := (cursor_overlay_sixteen_cells (TerminalFrame.new 6 5) ⟨0, 0⟩ (by decide)).2.1
        (0, 0, '█') (by decide) (by decide) (by decide)
      simpa using h⟩

/-- C7: the generated ANSI palette maps cube index `16 + 36r + 6g + b`
(for `r, g, b < 6`) to channel levels `0` when the level is `0` and
`55 + 40·level` otherwise, ordered r-major; gray index `232 + i` (for
`i < 24`) to `(8 + 10i, 8 + 10i, 8 + 10i)`; in particular entry 232 is
`(8,8,8)` and entry 255 is `(238,238,238)`. -/
theorem ansi_palette_cube_and_gray :
    (∀ r < 6, ∀ g < 6, ∀ b < 6,
      generate_ansi_palette[16 + 36 * r + 6 * g + b]? =
        some (Rgb.new (if r = 0 then 0 else 55 + r * 40)
                      (if g = 0 then 0 else 55 + g * 40)
                      (if b = 0 then 0 else 55 + b * 40))) ∧
    (∀ i < 24, generate_ansi_palette[232 + i]? =
      some (Rgb.new (8 + i * 10) (8 + i * 10) (8 + i * 10))) ∧
    generate_ansi_palette[232]? = some (Rgb.new 8 8 8) ∧
    generate_ansi_palette[255]? = some (Rgb.new 238 238 238) := by
  decide

/-- C7 witness: cube entry (r,g,b) = (1,2,3) at index 67 and gray entry 7
at index 239. -/
theorem ansi_palette_cube_and_gray_witness :
    generate_ansi_palette[67]? = some (Rgb.new 95 135 175) ∧
    generate_ansi_palette[239]? = some (Rgb.new 78 78 78) :=
  ⟨by
    have h := ansi_palette_cube_and_gray.1 1 (by omega) 2 (by omega) 3 (by omega)
    norm_num at h
    exact h,
   by
    have h := ansi_palette_cube_and_gray.2.1 7 (by omega)
    norm_num at h
    exact h⟩

/-- C8: the cursor stays in `[0, width) × [0, height)` for a terminal with
`width, height ≥ 1`: the initial center position is in range, and each
arrow key moves the cursor by exactly one cell in its direction unless
that would leave the range, in which case the position is unchanged. -/
theorem cursor_stays_in_range (width height : Nat) (hw : 1 ≤ width) (hh : 1 ≤ height)
    (pos : CursorPosition) (k : ArrowKey) (hx : pos.x < width) (hy : pos.y < height) :
    ((initCursor width height).x < width ∧ (initCursor width height).y < height) ∧
    ((moveCursor width height pos k).x < width ∧
      (moveCursor width height pos k).y < height) ∧
    (moveCursor width height pos k =
      match k with
      | .up => if pos.y = 0 then pos else ⟨pos.x, pos.y - 1⟩
      | .down => if pos.y + 1 = height then pos else ⟨pos.x, pos.y + 1⟩
      | .left => if pos.x = 0 then pos else ⟨pos.x - 1, pos.y⟩
      | .right => if pos.x + 1 = width then pos else ⟨pos.x + 1, pos.y⟩) := by
  obtain ⟨px, py⟩ := pos
  simp only [initCursor]
  refine ⟨⟨Nat.div_lt_self hw (by omega), Nat.div_lt_self hh (by omega)⟩, ?_⟩
  cases k <;> simp only [moveCursor] <;> split_ifs <;>
    simp_all [CursorPosition.mk.injEq] <;> omega

/-- C8 witness: a 3×2 terminal, cursor at the right edge, arrow right. -/
theorem cursor_stays_in_range_witness :
    ((1 : Nat) ≤ 3 ∧ (1 : Nat) ≤ 2 ∧ (2 : Nat) < 3 ∧ (1 : Nat) < 2) ∧
    (moveCursor 3 2 ⟨2, 1⟩ ArrowKey.right).x < 3 ∧
    (moveCursor 3 2 ⟨2, 1⟩ ArrowKey.right).y < 2 :=
  ⟨⟨by decide, by decide, by decide, by decide⟩,
    (cursor_stays_in_range 3 2 (by decide) (by decide) ⟨2, 1⟩ ArrowKey.right
      (by decide) (by decide)).2.1⟩

/-- C9: a URL that starts with `http://` or `https://` is used unchanged,
any other input gets `https://` prepended, and consequently the resulting
URL always starts with `http://` or `https://`. -/
theorem url_scheme_normalization (s : String) :
    normalizeUrl s = (if strStartsWith s "http://" || strStartsWith s "https://" then s
      else "https://" ++ s) ∧
    (strStartsWith (normalizeUrl s) "http://" = true ∨
      strStartsWith (normalizeUrl s) "https://" = true) := by
  refine ⟨rfl, ?_⟩
  unfold normalizeUrl
  split
  · rename_i h
    rcases Bool.or_eq_true_iff.mp h with h' | h'
    · exact Or.inl h'
    · exact Or.inr h'
  · right
    unfold strStartsWith
    rw [String.data_append]
    exact List.isPrefixOf_iff_prefix.mpr (List.prefix_append _ _)

/-- C10: `get_pixel` is unchecked: it fails (panics in the source, `none`
here) exactly when `(y * width + x) * 3 + 2 ≥ data.len()`; for
`x ≥ width` it can silently return the bytes of a later row (shown on a
concrete 2×2 image where pixel (2,0) reads pixel (0,1)); and
`HalfBlockConverter::convert image w h` is panic-free whenever
`w ≥ 1`, `h ≥ 1`, `image.width ≥ w` and `image.height ≥ 2h - 1`, because
every pixel access it then makes is in bounds. -/
theorem get_pixel_unchecked_and_convert_safe :
    (∀ (img : RgbImage) (x y : Nat),
      img.get_pixel x y = none ↔ img.data.length ≤ (y * img.width + x) * 3 + 2) ∧
    ((RgbImage.mk [10, 11, 12, 20, 21, 22, 30, 31, 32, 40, 41, 42] 2 2).get_pixel 2 0 =
        some (Rgb.new 30 31 32) ∧
      (RgbImage.mk [10, 11, 12, 20, 21, 22, 30, 31, 32, 40, 41, 42] 2 2).get_pixel 2 0 =
        (RgbImage.mk [10, 11, 12, 20, 21, 22, 30, 31, 32, 40, 41, 42] 2 2).get_pixel 0 1 ∧
      (RgbImage.mk [10, 11, 12, 20, 21, 22, 30, 31, 32, 40, 41, 42] 2 2).width ≤ 2) ∧
    (∀ (q : ColorQuantizer) (img : RgbImage) (tw th : Nat), 1 ≤ tw → 1 ≤ th →
      tw ≤ img.width → 2 * th - 1 ≤ img.height → img.wf →
      (HalfBlockConverter.convert q img tw th).isSome) := by
  refine ⟨get_pixel_none_iff, ⟨by decide, by decide, by decide⟩, ?_⟩
  intro q img tw th h1 h2 h3 h4 h5
  exact convert_isSome q img tw th h5 h3 h4

/-- C10 witness: the full converter succeeds on a well-formed 2×2 image at
terminal size 2×1 under the identity table. -/
theorem get_pixel_unchecked_and_convert_safe_witness :
    ((1 : Nat) ≤ 2 ∧ (1 : Nat) ≤ 1 ∧ (2 : Nat) ≤ 2 ∧ 2 * 1 - 1 ≤ 2 ∧
      (RgbImage.mk [10, 11, 12, 20, 21, 22, 30, 31, 32, 40, 41, 42] 2 2).wf) ∧
    (HalfBlockConverter.convert ⟨fun n => n⟩
      (RgbImage.mk [10, 11, 12, 20, 21, 22, 30, 31, 32, 40, 41, 42] 2 2) 2 1).isSome :=
  ⟨⟨by decide, by decide, by decide, by decide, by decide⟩,
    get_pixel_unchecked_and_convert_safe.2.2 ⟨fun n => n⟩
      (RgbImage.mk [10, 11, 12, 20, 21, 22, 30, 31, 32, 40, 41, 42] 2 2) 2 1
      (by decide) (by decide) (by decide) (by decide) (by decide)⟩
